import Mathlib

/-!
# Verification of the Itasca FISH socket/file protocol (`itasca.py`)

Shallow embedding of `src/itasca/itasca.py` (Python 2).  Bytes are modelled
as `Nat` (values `0..255`), byte strings as `List Nat`, `struct.pack`/
`struct.unpack` with the `"i"` and `"d"` formats as fixed-width little-endian
conversions.  Python doubles are represented by their IEEE-754 binary64 bit
pattern (a `Nat < 2^64`): `struct.pack "d"` / `struct.unpack "d"` only copy
those 8 bytes, so the codec is exactly a bit-pattern transport and equality
of doubles is bit equality.  Python 2 integer division (floor division) is
modelled by `Int.fdiv`; fallible operations return `Except Err`.
-/

namespace Itasca

/-- Errors surfaced by the Python code.  `structError` is `struct.error`
(raised by `struct.unpack` on a short buffer and by `struct.pack`/`calcsize`
on a bad value or format); `badPacketData` is the `AssertionError` with
message "bad packet data" in `read_type`; `dataReadTypeError` is the
`assert False, "Data read type error"` in `read_data`;
`unknownTypeInSendData` is the `Exception("unknown type in send_data")`;
`assertionError` is the failed `assert value == self.fishcode` in
`connect`; `blocked` marks a socket read that would block forever because
the peer never sends the requested bytes; `outOfFuel` is a model artifact
marking that a loop exceeded the given iteration bound. -/
inductive Err where
  | structError
  | badPacketData
  | dataReadTypeError
  | unknownTypeInSendData
  | assertionError
  | blocked
  | outOfFuel
deriving DecidableEq, Repr

/-- Little-endian byte list (width `w`) of a natural number, as produced by
`struct.pack` for unsigned reinterpretation. -/
def natToBytes : Nat → Nat → List Nat
  | 0, _ => []
  | w + 1, n => n % 256 :: natToBytes w (n / 256)

/-- Little-endian value of a byte list, as consumed by `struct.unpack`. -/
def bytesToNat : List Nat → Nat
  | [] => 0
  | b :: bs => b + 256 * bytesToNat bs

@[simp] theorem natToBytes_length (w n : Nat) : (natToBytes w n).length = w := by
  induction w generalizing n with
  | zero => rfl
  | succ w ih => simp [natToBytes, ih]

theorem bytesToNat_natToBytes (w n : Nat) :
    bytesToNat (natToBytes w n) = n % 256 ^ w := by
  induction w generalizing n with
  | zero => simp [natToBytes, bytesToNat, Nat.mod_one]
  | succ w ih =>
    simp only [natToBytes, bytesToNat, ih]
    have hdvd : (256 : Nat) ∣ 256 * 256 ^ w := Dvd.intro _ rfl
    have h1 : n / 256 % 256 ^ w = n % (256 * 256 ^ w) / 256 :=
      (Nat.mod_mul_right_div_self n 256 (256 ^ w)).symm
    have h2 : n % 256 = n % (256 * 256 ^ w) % 256 :=
      (Nat.mod_mod_of_dvd n hdvd).symm
    rw [h1, h2, Nat.mod_add_div, pow_succ, mul_comm (256 ^ w) 256]

/-- The 4 bytes of `struct.pack "i"` applied to an in-range 32-bit signed
integer (two's complement, little-endian). -/
def i32of (v : Int) : List Nat := natToBytes 4 (v % 2 ^ 32).toNat

/-- `struct.unpack "i"` on a 4-byte buffer: little-endian value,
reinterpreted as a signed 32-bit integer. -/
def unpack_i (bs : List Nat) : Int :=
  if bytesToNat bs < 2 ^ 31 then (bytesToNat bs : Int)
  else (bytesToNat bs : Int) - 2 ^ 32

/-- `struct.pack "i"`: fails with `struct.error` when the integer does not
fit in a signed 32-bit word. -/
def pack_i (v : Int) : Except Err (List Nat) :=
  if -(2 ^ 31) ≤ v ∧ v < 2 ^ 31 then .ok (i32of v) else .error .structError

/-- The 8 bytes of `struct.pack "d"` applied to the double whose IEEE-754
binary64 bit pattern is `bits`. -/
def packd (bits : Nat) : List Nat := natToBytes 8 bits

@[simp] theorem i32of_length (v : Int) : (i32of v).length = 4 := by
  simp [i32of]

@[simp] theorem packd_length (bits : Nat) : (packd bits).length = 8 := by
  simp [packd]

theorem unpack_i32of (v : Int) (h1 : -(2 ^ 31) ≤ v) (h2 : v < 2 ^ 31) :
    unpack_i (i32of v) = v := by
  unfold unpack_i i32of
  rw [bytesToNat_natToBytes]
  have h256 : (256 : Nat) ^ 4 = 2 ^ 32 := by norm_num
  rw [h256]
  split <;> omega

theorem bytesToNat_packd (bits : Nat) (h : bits < 2 ^ 64) :
    bytesToNat (packd bits) = bits := by
  unfold packd
  rw [bytesToNat_natToBytes]
  have h256 : (256 : Nat) ^ 8 = 2 ^ 64 := by norm_num
  rw [h256]
  exact Nat.mod_eq_of_lt h

@[simp] theorem pack_i_ok (v : Int) (h1 : -(2 ^ 31) ≤ v) (h2 : v < 2 ^ 31) :
    pack_i v = .ok (i32of v) := by
  simp only [pack_i]
  rw [if_pos ⟨h1, h2⟩]

/-- A decoded value, as returned by `read_data` / `FishBinaryReader.read`.
Doubles are represented by their binary64 bit pattern.  `noneVal` is
Python's implicit `None`, returned by `FishBinaryReader.read` when no tag
branch matches. -/
inductive Value where
  | int (v : Int)
  | real (bits : Nat)
  | str (s : List Nat)
  | v2 (a b : Nat)
  | v3 (a b c : Nat)
  | bool (b : Bool)
  | noneVal
deriving DecidableEq, Repr

/-- A Python number appearing as an element of a list passed to
`send_data`: either an `int` or a `float` (by bit pattern). -/
inductive PyNum where
  | int (v : Int)
  | float (bits : Nat)
deriving DecidableEq, Repr

/-- A Python value passed to `send_data`, covering the runtime types the
function inspects (`int`, `float`, `list`, `str`) plus `bool`, whose type
matches none of the `type(value) ==` checks in Python 2. -/
inductive PyValue where
  | int (v : Int)
  | float (bits : Nat)
  | list (xs : List PyNum)
  | str (s : List Nat)
  | bool (b : Bool)
deriving DecidableEq, Repr

/-- Fuel-bounded floor of the base-2 logarithm (the fuel only drives the
structural recursion; `log2fuel n n` is exact for every `n`). -/
def log2fuel : Nat → Nat → Nat
  | 0, _ => 0
  | fuel + 1, n => if n ≤ 1 then 0 else log2fuel fuel (n / 2) + 1

/-- Floor of the base-2 logarithm, `⌊log₂ n⌋` (0 at 0). -/
def floorLog2 (n : Nat) : Nat := log2fuel n n

/-- IEEE-754 binary64 bit pattern of a natural number, with round half to
even for magnitudes above `2^53` — this models Python's `float(n)` for all
`n` below the overflow threshold `2^1024` (overflow raises in Python and is
not modelled; no claim exercises it). -/
def doubleOfNat (n : Nat) : Nat :=
  if n = 0 then 0
  else
    let k := floorLog2 n
    if k ≤ 52 then (1023 + k) * 2 ^ 52 + (n - 2 ^ k) * 2 ^ (52 - k)
    else
      let shift := k - 52
      let q := n / 2 ^ shift
      let r := n % 2 ^ shift
      let q2 := if 2 ^ (shift - 1) < r ∨ (r = 2 ^ (shift - 1) ∧ q % 2 = 1)
        then q + 1 else q
      (1023 + k) * 2 ^ 52 + (q2 - 2 ^ 52)

/-- IEEE-754 binary64 bit pattern of an integer (sign-magnitude),
modelling Python's `float(v)` for an `int` argument. -/
def doubleOfInt (v : Int) : Nat :=
  if v < 0 then 2 ^ 63 + doubleOfNat (-v).toNat else doubleOfNat v.toNat

/-- Python's `float(x)` coercion applied by `send_data` to every element of
a length-2 or length-3 list: the identity on floats, IEEE conversion on
ints. -/
def pyFloat : PyNum → Nat
  | .int v => doubleOfInt v
  | .float bits => bits

/-- The padded buffer length `4*(1+(length-1)/4)` computed (with Python 2
floor division, `Int.fdiv`) by `send_data`, `read_data` and
`FishBinaryReader.read` for string payloads. -/
def buffer_length (length : Int) : Int := 4 * (1 + (length - 1).fdiv 4)

/-- Python's slice `d[:L]`, including the negative-stop case. -/
def pySliceTo (d : List Nat) (L : Int) : List Nat :=
  if 0 ≤ L then d.take L.toNat else d.take ((d.length : Int) + L).toNat

/-- `ItascaFishSocketServer.send_data`: dispatch on the Python runtime type
of `value`, emit the int32 tag then the payload.  List elements are coerced
with `float(x)`; strings are length-prefixed and padded with `' '` (byte 32)
to `buffer_length`; any other type raises
`Exception("unknown type in send_data")`. -/
def send_data : PyValue → Except Err (List Nat)
  | .int v => do
      let tag ← pack_i 1
      let data ← pack_i v
      .ok (tag ++ data)
  | .float bits => do
      let tag ← pack_i 2
      .ok (tag ++ packd bits)
  | .list xs =>
      match xs with
      | [x0, x1] => do
          let tag ← pack_i 5
          .ok (tag ++ (packd (pyFloat x0) ++ packd (pyFloat x1)))
      | [x0, x1, x2] => do
          let tag ← pack_i 6
          .ok (tag ++ (packd (pyFloat x0) ++ packd (pyFloat x1) ++
            packd (pyFloat x2)))
      | _ => .error .unknownTypeInSendData
  | .str s => do
      let length : Int := s.length
      let hdr ← pack_i 3
      let len ← pack_i length
      .ok (hdr ++ len ++
        (s ++ List.replicate (buffer_length length - length).toNat 32))
  | .bool _ => .error .unknownTypeInSendData

/-- Reading exactly `n` bytes from the connection, as `read_type` does for
a fully delivered stream modelled as a byte list; when fewer than `n` bytes
will ever arrive the Python loop never returns (`blocked`). -/
def takeE (n : Nat) (bs : List Nat) : Except Err (List Nat × List Nat) :=
  if n ≤ bs.length then .ok (bs.take n, bs.drop n) else .error .blocked

/-- `ItascaFishSocketServer.read_data` over a byte list holding the
delivered stream: read the int32 tag, then the payload bytes that tag
dictates; an unmatched tag hits `assert False, "Data read type error"`. -/
def read_data (bs : List Nat) : Except Err (Value × List Nat) := do
  let (raw, bs) ← takeE 4 bs
  let type_code := unpack_i raw
  if type_code = 1 then do
    let (d, bs) ← takeE 4 bs
    .ok (.int (unpack_i d), bs)
  else if type_code = 2 then do
    let (d, bs) ← takeE 8 bs
    .ok (.real (bytesToNat d), bs)
  else if type_code = 3 then do
    let (ld, bs) ← takeE 4 bs
    let length := unpack_i ld
    let bl := buffer_length length
    if bl < 0 then .error .structError
    else do
      let (d, bs) ← takeE bl.toNat bs
      .ok (.str (pySliceTo d length), bs)
  else if type_code = 5 then do
    let (d, bs) ← takeE 16 bs
    .ok (.v2 (bytesToNat (d.take 8)) (bytesToNat (d.drop 8)), bs)
  else if type_code = 6 then do
    let (d, bs) ← takeE 24 bs
    .ok (.v3 (bytesToNat (d.take 8)) (bytesToNat ((d.drop 8).take 8))
      (bytesToNat (d.drop 16)), bs)
  else .error .dataReadTypeError

/-- The receive side of the socket: the peer's pending deliveries as a list
of chunks.  `recv k` returns at most `k` bytes from the head chunk (TCP may
deliver fewer bytes than requested); an exhausted chunk list models a peer
that closed the connection, for which `socket.recv` returns the empty
string on every call. -/
structure Conn where
  chunks : List (List Nat)
deriving DecidableEq, Repr

/-- `self.conn.recv(k)`: up to `k` bytes from the head pending chunk; the
empty string once the peer has closed. -/
def recv : Conn → Nat → List Nat × Conn
  | ⟨[]⟩, _ => ([], ⟨[]⟩)
  | ⟨c :: cs⟩, k => if c.length ≤ k then (c, ⟨cs⟩) else (c.take k, ⟨c.drop k :: cs⟩)

/-- The body of `ItascaFishSocketServer.read_type`, fuel-bounded:

    while bytes_read < byte_count:
        data_in = self.conn.recv(byte_count - bytes_read)
        data += data_in
        bytes_read += len(data)        # note: len(data), not len(data_in)
    assert len(data)==byte_count, "bad packet data"

The `fuel` argument only bounds the number of loop iterations; exceeding it
yields the model marker `outOfFuel`. -/
def readTypeLoop : Nat → Conn → List Nat → Nat → Nat → Except Err (List Nat × Conn)
  | 0, conn, data, bytes_read, byte_count =>
      if bytes_read < byte_count then .error .outOfFuel
      else if data.length = byte_count then .ok (data, conn)
      else .error .badPacketData
  | fuel + 1, conn, data, bytes_read, byte_count =>
      if bytes_read < byte_count then
        let r := recv conn (byte_count - bytes_read)
        let data2 := data ++ r.1
        readTypeLoop fuel r.2 data2 (bytes_read + data2.length) byte_count
      else if data.length = byte_count then .ok (data, conn)
      else .error .badPacketData

/-- `ItascaFishSocketServer.read_type` for a fixed byte count (the
`struct.calcsize` of its format string), starting with an empty buffer. -/
def read_type (fuel : Nat) (conn : Conn) (byte_count : Nat) :
    Except Err (List Nat × Conn) :=
  readTypeLoop fuel conn [] 0 byte_count

/-- The fish handshake constant assigned in
`ItascaSoftwareConnection.__init__`. -/
def fishcode : Int := 178278912

/-- `ItascaFishSocketServer.get_handshake`: `read_type("i")` — four raw
bytes, no tag — then `struct.unpack "i"`.  Modelled over the delivered byte
stream. -/
def get_handshake (bs : List Nat) : Except Err (Int × List Nat) := do
  let (raw, bs) ← takeE 4 bs
  .ok (unpack_i raw, bs)

/-- `ItascaSoftwareConnection.connect` after the socket is established:
`value = self.server.get_handshake(); assert value == self.fishcode`.  On
success the remaining stream is usable for `receive`; a failed assert
aborts before the connection is ever used. -/
def connect (bs : List Nat) : Except Err (List Nat) := do
  let (value, bs) ← get_handshake bs
  if value = fishcode then .ok bs else .error .assertionError

/-- `FishBinaryReader`'s file handle: `self.file.read(n)` returns *up to*
`n` bytes and never errors; shortness is only detected where the code
unpacks. -/
def fread (n : Nat) (bs : List Nat) : List Nat × List Nat :=
  (bs.take n, bs.drop n)

namespace FishBinaryReader

/-- `FishBinaryReader._read_int`: `struct.unpack "i"` on
`self.file.read(4)`; `struct.error` when fewer than 4 bytes remain. -/
def read_int (bs : List Nat) : Except Err (Int × List Nat) :=
  let r := fread 4 bs
  if r.1.length = 4 then .ok (unpack_i r.1, r.2) else .error .structError

/-- `FishBinaryReader._read_double`: `struct.unpack "d"` on
`self.file.read(8)`; `struct.error` when fewer than 8 bytes remain. -/
def read_double (bs : List Nat) : Except Err (Nat × List Nat) :=
  let r := fread 8 bs
  if r.1.length = 8 then .ok (bytesToNat r.1, r.2) else .error .structError

/-- `FishBinaryReader.read`, over the file's remaining bytes: read the tag,
dispatch over `1, 8, 2, 3, 5, 6` in source order; a string payload is
fetched with `self.file.read` (silently short at end of file); when no
branch matches the Python function falls through and returns `None`. -/
def read (bs : List Nat) : Except Err (Value × List Nat) := do
  let (type_code, bs) ← read_int bs
  if type_code = 1 then do
    let (v, bs) ← read_int bs
    .ok (.int v, bs)
  else if type_code = 8 then do
    let (v, bs) ← read_int bs
    .ok (.bool (decide (v ≠ 0)), bs)
  else if type_code = 2 then do
    let (d, bs) ← read_double bs
    .ok (.real d, bs)
  else if type_code = 3 then do
    let (length, bs) ← read_int bs
    let bl := buffer_length length
    if bl < 0 then .error .structError
    else
      let r := fread bl.toNat bs
      .ok (.str (pySliceTo r.1 length), r.2)
  else if type_code = 5 then do
    let (d0, bs) ← read_double bs
    let (d1, bs) ← read_double bs
    .ok (.v2 d0 d1, bs)
  else if type_code = 6 then do
    let (d0, bs) ← read_double bs
    let (d1, bs) ← read_double bs
    let (d2, bs) ← read_double bs
    .ok (.v3 d0 d1 d2, bs)
  else .ok (.noneVal, bs)

/-- The reader's mutable state: the (unmodified) file contents and the
current read position of the file handle. -/
structure RState where
  contents : List Nat
  pos : Nat
deriving DecidableEq, Repr

/-- `FishBinaryReader.__iter__`: `self.file.seek(0)` then `self._read_int()`
to pop the magic number off — it re-reads the 4 header bytes without
checking their value, leaving the position immediately after the header. -/
def iterFB (s : RState) : Except Err RState :=
  if 4 ≤ s.contents.length then .ok ⟨s.contents, 4⟩ else .error .structError

/-- The iteration driven by `FishBinaryReader.next`: each step returns
`read()` and any exception (struct.error at end of data or at a truncated
numeric payload) becomes `StopIteration`, ending the sequence.  `fuel`
bounds the step count; every successful `read` consumes at least the 4 tag
bytes, so `contents.length` steps always suffice. -/
def collectR : Nat → List Nat → List Value × List Nat
  | 0, bs => ([], bs)
  | fuel + 1, bs =>
    match read bs with
    | .ok (v, rest) =>
      let r := collectR fuel rest
      (v :: r.1, r.2)
    | .error _ => ([], bs)

/-- `FishBinaryReader.aslist` (`[x for x in self]`): calls `__iter__`, then
`next` until `StopIteration`; returns the values and leaves the file
position where iteration stopped. -/
def aslist (s : RState) : Except Err (List Value × RState) := do
  let s1 ← iterFB s
  let r := collectR s1.contents.length (s1.contents.drop s1.pos)
  .ok (r.1, ⟨s1.contents, s1.contents.length - r.2.length⟩)

end FishBinaryReader

/-- The values `send_data` accepts, with the bounds Python enforces: an
`int` must fit `struct.pack "i"`, a float's bit pattern is 64 bits wide, a
list has length 2 or 3 with float elements (the shape the round-trip claim
quantifies over), a string's length must fit `struct.pack "i"`. -/
def wf : PyValue → Prop
  | .int v => -(2 ^ 31) ≤ v ∧ v < 2 ^ 31
  | .float bits => bits < 2 ^ 64
  | .list xs => (xs.length = 2 ∨ xs.length = 3) ∧
      ∀ x ∈ xs, ∃ bits, x = PyNum.float bits ∧ bits < 2 ^ 64
  | .str s => (s.length : Int) < 2 ^ 31
  | .bool _ => False

/-- The value the peer observes for a sent Python value: ints and strings
unchanged, floats by bit pattern, list elements coerced through
`float(x)`. -/
def pyToValue : PyValue → Value
  | .int v => .int v
  | .float bits => .real bits
  | .list [x0, x1] => .v2 (pyFloat x0) (pyFloat x1)
  | .list [x0, x1, x2] => .v3 (pyFloat x0) (pyFloat x1) (pyFloat x2)
  | .list _ => .noneVal
  | .str s => .str s
  | .bool b => .bool b

/-! ## Helper lemmas -/

@[simp] theorem ok_bind {α β : Type} (a : α) (f : α → Except Err β) :
    (Except.ok a >>= f) = f a := rfl

@[simp] theorem error_bind {α β : Type} (e : Err) (f : α → Except Err β) :
    ((Except.error e : Except Err α) >>= f) = Except.error e := rfl

theorem takeE_exact {l : List Nat} {n : Nat} (r : List Nat) (h : l.length = n) :
    takeE n (l ++ r) = .ok (l, r) := by
  have hle : n ≤ (l ++ r).length := by rw [List.length_append]; omega
  unfold takeE
  rw [if_pos hle, List.take_left' h, List.drop_left' h]

theorem takeE_self {l : List Nat} {n : Nat} (h : l.length = n) :
    takeE n l = .ok (l, []) := by
  have := @takeE_exact l n [] h
  simpa using this

theorem buffer_length_nat (n : Nat) :
    buffer_length (n : Int) = ((if n = 0 then 0 else 4 * ((n + 3) / 4) : Nat) : Int) := by
  cases n with
  | zero => decide
  | succ m =>
    unfold buffer_length
    have h1 : ((m + 1 : Nat) : Int) - 1 = ((m : Nat) : Int) := by push_cast; ring
    have h2 : ((m : Nat) : Int).fdiv 4 = ((m / 4 : Nat) : Int) := by
      exact_mod_cast (Int.ofNat_fdiv m 4).symm
    rw [h1, h2]
    have h3 : (m + 1 + 3) / 4 = m / 4 + 1 := by omega
    simp only [Nat.succ_ne_zero, if_false, h3]
    push_cast
    ring

theorem buffer_length_nonneg (n : Nat) : 0 ≤ buffer_length (n : Int) := by
  rw [buffer_length_nat]
  exact Int.ofNat_nonneg _

theorem le_buffer_length (n : Nat) : (n : Int) ≤ buffer_length (n : Int) := by
  rw [buffer_length_nat]
  split
  · omega
  · have : n ≤ 4 * ((n + 3) / 4) := by omega
    exact_mod_cast this

theorem pySliceTo_append {s : List Nat} (r : List Nat) :
    pySliceTo (s ++ r) (s.length : Int) = s := by
  unfold pySliceTo
  rw [if_pos (Int.ofNat_nonneg _)]
  simp [@List.take_left' Nat s r s.length rfl]

namespace FishBinaryReader

theorem read_int_exact {l : List Nat} (rest : List Nat) (t : Int)
    (hl : l.length = 4) (hu : unpack_i l = t) :
    read_int (l ++ rest) = .ok (t, rest) := by
  unfold read_int fread
  rw [List.take_left' hl, List.drop_left' hl]
  simp [hl, hu]

theorem read_int_i32of (t : Int) (rest : List Nat)
    (h1 : -(2 ^ 31) ≤ t) (h2 : t < 2 ^ 31) :
    read_int (i32of t ++ rest) = .ok (t, rest) :=
  read_int_exact rest t (i32of_length t) (unpack_i32of t h1 h2)

theorem read_int_short (bs : List Nat) (h : bs.length < 4) :
    read_int bs = .error .structError := by
  unfold read_int fread
  rw [if_neg]
  simp only [List.length_take]
  omega

theorem read_double_packd (bits : Nat) (rest : List Nat) (h : bits < 2 ^ 64) :
    read_double (packd bits ++ rest) = .ok (bits, rest) := by
  unfold read_double fread
  rw [List.take_left' (packd_length bits), List.drop_left' (packd_length bits)]
  simp [bytesToNat_packd bits h]

theorem read_double_short (bs : List Nat) (h : bs.length < 8) :
    read_double bs = .error .structError := by
  unfold read_double fread
  rw [if_neg]
  simp only [List.length_take]
  omega

end FishBinaryReader

/-! ## Round-trip helper lemmas for the socket codec -/

theorem read_data_int (v : Int) (h1 : -(2 ^ 31) ≤ v) (h2 : v < 2 ^ 31) :
    read_data (i32of 1 ++ i32of v) = .ok (.int v, []) := by
  unfold read_data
  rw [takeE_exact (i32of v) (i32of_length 1)]
  simp only [ok_bind]
  rw [unpack_i32of 1 (by norm_num) (by norm_num)]
  rw [if_pos rfl, takeE_self (i32of_length v)]
  simp only [ok_bind]
  rw [unpack_i32of v h1 h2]

theorem read_data_real (bits : Nat) (h : bits < 2 ^ 64) :
    read_data (i32of 2 ++ packd bits) = .ok (.real bits, []) := by
  unfold read_data
  rw [takeE_exact (packd bits) (i32of_length 2)]
  simp only [ok_bind]
  rw [unpack_i32of 2 (by norm_num) (by norm_num)]
  rw [if_neg (by norm_num), if_pos rfl, takeE_self (packd_length bits)]
  simp only [ok_bind]
  rw [bytesToNat_packd bits h]

theorem read_data_v2 (f0 f1 : Nat) (h0 : f0 < 2 ^ 64) (h1 : f1 < 2 ^ 64) :
    read_data (i32of 5 ++ (packd f0 ++ packd f1)) = .ok (.v2 f0 f1, []) := by
  unfold read_data
  rw [takeE_exact (packd f0 ++ packd f1) (i32of_length 5)]
  simp only [ok_bind]
  rw [unpack_i32of 5 (by norm_num) (by norm_num)]
  rw [if_neg (by norm_num), if_neg (by norm_num), if_neg (by norm_num), if_pos rfl]
  have hlen : (packd f0 ++ packd f1).length = 16 := by simp
  rw [takeE_self hlen]
  simp only [ok_bind]
  rw [List.take_left' (packd_length f0), List.drop_left' (packd_length f0)]
  rw [bytesToNat_packd f0 h0, bytesToNat_packd f1 h1]

theorem read_data_v3 (f0 f1 f2 : Nat)
    (h0 : f0 < 2 ^ 64) (h1 : f1 < 2 ^ 64) (h2 : f2 < 2 ^ 64) :
    read_data (i32of 6 ++ (packd f0 ++ packd f1 ++ packd f2)) =
      .ok (.v3 f0 f1 f2, []) := by
  unfold read_data
  rw [takeE_exact (packd f0 ++ packd f1 ++ packd f2) (i32of_length 6)]
  simp only [ok_bind]
  rw [unpack_i32of 6 (by norm_num) (by norm_num)]
  rw [if_neg (by norm_num), if_neg (by norm_num), if_neg (by norm_num),
    if_neg (by norm_num), if_pos rfl]
  have hlen : (packd f0 ++ packd f1 ++ packd f2).length = 24 := by simp
  rw [takeE_self hlen]
  simp only [ok_bind]
  have h16 : (packd f0 ++ packd f1).length = 16 := by simp
  rw [List.append_assoc (packd f0),
    @List.take_left' Nat (packd f0) (packd f1 ++ packd f2) 8 (packd_length f0),
    @List.drop_left' Nat (packd f0) (packd f1 ++ packd f2) 8 (packd_length f0),
    @List.take_left' Nat (packd f1) (packd f2) 8 (packd_length f1),
    ← List.append_assoc (packd f0),
    @List.drop_left' Nat (packd f0 ++ packd f1) (packd f2) 16 h16]
  rw [bytesToNat_packd f0 h0, bytesToNat_packd f1 h1, bytesToNat_packd f2 h2]

theorem read_data_str (s : List Nat) (h : (s.length : Int) < 2 ^ 31) :
    read_data (i32of 3 ++ (i32of (s.length : Int) ++
      (s ++ List.replicate
        (buffer_length (s.length : Int) - (s.length : Int)).toNat 32))) =
      .ok (.str s, []) := by
  have hL0 : -(2 ^ 31) ≤ ((s.length : Nat) : Int) := by
    have := Int.ofNat_nonneg s.length
    omega
  unfold read_data
  rw [takeE_exact _ (i32of_length 3)]
  simp only [ok_bind]
  rw [unpack_i32of 3 (by norm_num) (by norm_num)]
  rw [if_neg (by norm_num), if_neg (by norm_num), if_pos rfl]
  rw [takeE_exact _ (i32of_length (s.length : Int))]
  simp only [ok_bind]
  rw [unpack_i32of _ hL0 h]
  rw [if_neg (not_lt.mpr (buffer_length_nonneg s.length))]
  have hb0 := buffer_length_nonneg s.length
  have hbl := le_buffer_length s.length
  have hlen : (s ++ List.replicate
      (buffer_length (s.length : Int) - (s.length : Int)).toNat 32).length =
      (buffer_length (s.length : Int)).toNat := by
    simp only [List.length_append, List.length_replicate]
    omega
  rw [takeE_self hlen]
  simp only [ok_bind]
  rw [pySliceTo_append]

theorem send_data_int (v : Int) (h1 : -(2 ^ 31) ≤ v) (h2 : v < 2 ^ 31) :
    send_data (.int v) = .ok (i32of 1 ++ i32of v) := by
  simp only [send_data]
  rw [pack_i_ok 1 (by norm_num) (by norm_num), pack_i_ok v h1 h2]
  simp only [ok_bind]

theorem send_data_float (bits : Nat) :
    send_data (.float bits) = .ok (i32of 2 ++ packd bits) := by
  simp only [send_data]
  rw [pack_i_ok 2 (by norm_num) (by norm_num)]
  simp only [ok_bind]

theorem send_data_v2 (x0 x1 : PyNum) :
    send_data (.list [x0, x1]) =
      .ok (i32of 5 ++ (packd (pyFloat x0) ++ packd (pyFloat x1))) := by
  simp only [send_data]
  rw [pack_i_ok 5 (by norm_num) (by norm_num)]
  simp only [ok_bind]

theorem send_data_v3 (x0 x1 x2 : PyNum) :
    send_data (.list [x0, x1, x2]) =
      .ok (i32of 6 ++
        (packd (pyFloat x0) ++ packd (pyFloat x1) ++ packd (pyFloat x2))) := by
  simp only [send_data]
  rw [pack_i_ok 6 (by norm_num) (by norm_num)]
  simp only [ok_bind]

theorem send_data_str (s : List Nat) (h : (s.length : Int) < 2 ^ 31) :
    send_data (.str s) = .ok (i32of 3 ++ i32of (s.length : Int) ++
      (s ++ List.replicate
        (buffer_length (s.length : Int) - (s.length : Int)).toNat 32)) := by
  have hL0 : -(2 ^ 31) ≤ ((s.length : Nat) : Int) := by
    have := Int.ofNat_nonneg s.length
    omega
  simp only [send_data]
  rw [pack_i_ok 3 (by norm_num) (by norm_num), pack_i_ok _ hL0 h]
  simp only [ok_bind]

/-! ## Claim theorems -/

/-- C1: evaluating `read_type` at the failing input.  The loop advances
`bytes_read` by the *total* accumulated length instead of the new
increment, so a 4-byte request delivered as four 1-byte chunks exits after
three chunks with only 3 bytes and hits `assert len(data)==byte_count,
"bad packet data"`, while the same four bytes delivered in one piece are
returned intact — the two delivery schedules do not decode alike, contrary
to the read-accumulation contract. -/
theorem C1_read_type_chunked :
    read_type 16 ⟨[[7], [8], [9], [10]]⟩ 4 = .error .badPacketData ∧
    read_type 16 ⟨[[7, 8, 9, 10]]⟩ 4 = .ok ([7, 8, 9, 10], ⟨[]⟩) := ⟨rfl, rfl⟩

/-- C2 counterexample: the padding function of `send_data`, `read_data` and
`FishBinaryReader.read` gives `buffer_length 0 = 0` (Python 2 floor
division makes `(0-1)/4 = -1`), not `4` as the claim states. -/
theorem C2_counterexample : buffer_length 0 = 0 ∧ buffer_length 0 ≠ 4 := by
  decide

/-- C2 (amended): `buffer_length n = n` for a positive multiple of 4, the
next multiple of 4 above `n` for any other positive `n`, and
`buffer_length 0 = 0` (not 4). -/
theorem C2_padding_law (n : Nat) :
    (0 < n → n % 4 = 0 → buffer_length (n : Int) = (n : Int)) ∧
    (0 < n → n % 4 ≠ 0 → buffer_length (n : Int) = ((4 * (n / 4 + 1) : Nat) : Int)) ∧
    buffer_length (0 : Int) = 0 := by
  refine ⟨?_, ?_, by decide⟩
  · intro hpos hmod
    rw [buffer_length_nat, if_neg (by omega)]
    have hx : 4 * ((n + 3) / 4) = n := by omega
    exact_mod_cast hx
  · intro hpos hmod
    rw [buffer_length_nat, if_neg (by omega)]
    have hx : 4 * ((n + 3) / 4) = 4 * (n / 4 + 1) := by omega
    exact_mod_cast hx

/-- C2 witness: the amended padding law at 8 (positive multiple of 4),
5 (not a multiple) and 0. -/
theorem C2_witness :
    buffer_length 8 = 8 ∧ buffer_length 5 = 8 ∧ buffer_length 0 = 0 := by
  refine ⟨(C2_padding_law 8).1 (by decide) (by decide), ?_, (C2_padding_law 0).2.2⟩
  have h := (C2_padding_law 5).2.1 (by decide) (by decide)
  simpa using h

/-- C3: round-trip — for every supported value (32-bit int, double,
length-2 or length-3 list of doubles, string of any length), decoding the
bytes produced by `send_data` with `read_data` yields the value the sender
encoded, consuming the bytes exactly. -/
theorem C3_roundtrip (v : PyValue) (h : wf v) :
    ∃ bs, send_data v = .ok bs ∧ read_data bs = .ok (pyToValue v, []) := by
  cases v with
  | int n =>
    obtain ⟨h1, h2⟩ := h
    exact ⟨_, send_data_int n h1 h2, read_data_int n h1 h2⟩
  | float bits =>
    exact ⟨_, send_data_float bits, read_data_real bits h⟩
  | list xs =>
    obtain ⟨hlen, hfl⟩ := h
    rcases xs with _ | ⟨x0, _ | ⟨x1, _ | ⟨x2, _ | ⟨x3, tl⟩⟩⟩⟩
    · simp only [List.length_nil] at hlen; omega
    · simp only [List.length_cons, List.length_nil] at hlen; omega
    · obtain ⟨b0, rfl, hb0⟩ := hfl x0 (by simp)
      obtain ⟨b1, rfl, hb1⟩ := hfl x1 (by simp)
      exact ⟨_, send_data_v2 _ _, read_data_v2 b0 b1 hb0 hb1⟩
    · obtain ⟨b0, rfl, hb0⟩ := hfl x0 (by simp)
      obtain ⟨b1, rfl, hb1⟩ := hfl x1 (by simp)
      obtain ⟨b2, rfl, hb2⟩ := hfl x2 (by simp)
      exact ⟨_, send_data_v3 _ _ _, read_data_v3 b0 b1 b2 hb0 hb1 hb2⟩
    · simp only [List.length_cons] at hlen; omega
  | str s =>
    refine ⟨_, send_data_str s h, ?_⟩
    rw [List.append_assoc]
    exact read_data_str s h
  | bool b => exact h.elim

/-- C3 witness: the round trip at the string "abc". -/
theorem C3_witness :
    ∃ bs, send_data (.str [97, 98, 99]) = .ok bs ∧
      read_data bs = .ok (pyToValue (.str [97, 98, 99]), []) :=
  C3_roundtrip (.str [97, 98, 99]) (by norm_num [wf])

/-- C4 counterexample: the log-file decode path does not fail on the
unknown tag 4 — `FishBinaryReader.read` falls through every branch and
silently returns Python `None`, contrary to the claim that both decode
paths raise a fatal error on any tag outside their table. -/
theorem C4_counterexample :
    FishBinaryReader.read (i32of 4) = .ok (.noneVal, []) := rfl

/-- C4 (amended): for every tag outside {1,2,3,5,6} the socket decode path
fails fatally (`assert False, "Data read type error"`); the log-file
decode path, for every tag outside {1,2,3,5,6,8}, silently succeeds with
`None` instead of failing. -/
theorem C4_unknown_tag (t : Int) (rest : List Nat)
    (h1 : -(2 ^ 31) ≤ t) (h2 : t < 2 ^ 31)
    (h : t ∉ ([1, 2, 3, 5, 6] : List Int)) :
    read_data (i32of t ++ rest) = .error .dataReadTypeError ∧
    (t ≠ 8 → FishBinaryReader.read (i32of t ++ rest) = .ok (.noneVal, rest)) := by
  simp only [List.mem_cons, List.not_mem_nil, or_false, not_or] at h
  obtain ⟨n1, n2, n3, n5, n6⟩ := h
  constructor
  · unfold read_data
    rw [takeE_exact rest (i32of_length t)]
    simp only [ok_bind]
    rw [unpack_i32of t h1 h2]
    simp [n1, n2, n3, n5, n6]
  · intro n8
    unfold FishBinaryReader.read
    rw [FishBinaryReader.read_int_i32of t rest h1 h2]
    simp only [ok_bind]
    simp [n1, n2, n3, n5, n6, n8]

/-- C4 witness: the amended behaviour at tag 7 with a nonempty remainder. -/
theorem C4_witness :
    read_data (i32of 7 ++ [9]) = .error .dataReadTypeError ∧
    FishBinaryReader.read (i32of 7 ++ [9]) = .ok (.noneVal, [9]) := by
  have h := C4_unknown_tag 7 [9] (by norm_num) (by norm_num) (by decide)
  exact ⟨h.1, h.2 (by norm_num)⟩

/-- C5 counterexample: the handshake reads a *raw* 4-byte integer, not an
Integer-tagged value.  A peer that sends the magic constant 178278912 as an
Integer-tagged value — exactly the bytes `send_data` produces for it —
fails the handshake, because `get_handshake` consumes the tag word 1 and
compares it with the constant. -/
theorem C5_counterexample :
    send_data (.int fishcode) = .ok (i32of 1 ++ i32of fishcode) ∧
    connect (i32of 1 ++ i32of fishcode) = .error .assertionError := ⟨rfl, rfl⟩

/-- C5 (amended): the handshake reads one raw (untagged) 32-bit integer
from the stream; `connect` succeeds, leaving the rest of the stream for
later reads, exactly when that integer is 178278912, and otherwise fails
its assertion so the connection never becomes usable. -/
theorem C5_handshake (v : Int) (rest : List Nat)
    (h1 : -(2 ^ 31) ≤ v) (h2 : v < 2 ^ 31) :
    get_handshake (i32of v ++ rest) = .ok (v, rest) ∧
    connect (i32of v ++ rest) =
      (if v = fishcode then .ok rest else .error .assertionError) := by
  have hg : get_handshake (i32of v ++ rest) = .ok (v, rest) := by
    unfold get_handshake
    rw [takeE_exact rest (i32of_length v)]
    simp only [ok_bind]
    rw [unpack_i32of v h1 h2]
  refine ⟨hg, ?_⟩
  unfold connect
  rw [hg]
  simp only [ok_bind]

/-- C5 witness: a raw 178278912 completes the handshake; a raw 7 fails. -/
theorem C5_witness :
    connect (i32of fishcode ++ [5]) = .ok [5] ∧
    connect (i32of 7 ++ [5]) = .error .assertionError := by
  have ha := (C5_handshake fishcode [5] (by norm_num [fishcode]) (by norm_num [fishcode])).2
  have hb := (C5_handshake 7 [5] (by norm_num) (by norm_num)).2
  rw [if_pos rfl] at ha
  rw [if_neg (by norm_num [fishcode])] at hb
  exact ⟨ha, hb⟩

/-- C6: starting iteration (`__iter__`) re-seeks to position 4 —
immediately after the 4-byte magic header — for any current position and
without inspecting the header bytes, and running the `aslist` iteration a
second time from the state the first run left behind yields the identical
ordered list of decoded values. -/
theorem C6_restart (c : List Nat) (p : Nat) (h : 4 ≤ c.length) :
    FishBinaryReader.iterFB ⟨c, p⟩ = .ok ⟨c, 4⟩ ∧
    ∀ vs s1, FishBinaryReader.aslist ⟨c, p⟩ = .ok (vs, s1) →
      FishBinaryReader.aslist s1 = .ok (vs, s1) := by
  have hi : FishBinaryReader.iterFB ⟨c, p⟩ = .ok ⟨c, 4⟩ := by
    unfold FishBinaryReader.iterFB
    rw [if_pos h]
  refine ⟨hi, ?_⟩
  intro vs s1 hA
  unfold FishBinaryReader.aslist at hA ⊢
  rw [hi] at hA
  simp only [ok_bind] at hA
  simp only [Except.ok.injEq, Prod.mk.injEq] at hA
  obtain ⟨hv, hs⟩ := hA
  subst hv
  subst hs
  have hi2 : FishBinaryReader.iterFB
      ⟨c, c.length - (FishBinaryReader.collectR c.length (c.drop 4)).2.length⟩ =
      .ok ⟨c, 4⟩ := by
    unfold FishBinaryReader.iterFB
    rw [if_pos h]
  rw [hi2]
  simp only [ok_bind]

/-- C6 witness: a file holding the magic header and one Integer record,
iterated from an arbitrary position 7 and then again from where the first
iteration stopped (position 12), yields `[42]` both times. -/
theorem C6_witness :
    FishBinaryReader.iterFB ⟨i32of fishcode ++ (i32of 1 ++ i32of 42), 7⟩ =
      .ok ⟨i32of fishcode ++ (i32of 1 ++ i32of 42), 4⟩ ∧
    FishBinaryReader.aslist ⟨i32of fishcode ++ (i32of 1 ++ i32of 42), 12⟩ =
      .ok ([.int 42], ⟨i32of fishcode ++ (i32of 1 ++ i32of 42), 12⟩) := by
  have h := C6_restart (i32of fishcode ++ (i32of 1 ++ i32of 42)) 7 (by simp)
  exact ⟨h.1, h.2 [.int 42] ⟨i32of fishcode ++ (i32of 1 ++ i32of 42), 12⟩ (by rfl)⟩

/-- C7 counterexample: a log file whose last record is a String declaring
4 payload bytes but supplying only 2 ("ab") does not raise any error —
`FishBinaryReader.read` silently returns the truncated text, because
`self.file.read` never signals shortness and the string branch performs no
unpack. -/
theorem C7_counterexample :
    FishBinaryReader.read (i32of 3 ++ i32of 4 ++ [97, 98]) =
      .ok (.str [97, 98], []) := rfl

/-- C7 (amended): `read()` at clean end-of-data raises `struct.error`; a
Real record whose 8-byte payload is short raises the *same* `struct.error`
(there is no distinct Truncated failure); and a String record with a short
payload is returned silently, truncated to the bytes present. -/
theorem C7_truncation :
    FishBinaryReader.read ([] : List Nat) = .error .structError ∧
    (∀ s : List Nat, s.length < 8 →
      FishBinaryReader.read (i32of 2 ++ s) = .error .structError) ∧
    (∀ (L : Nat) (s : List Nat), (L : Int) < 2 ^ 31 →
      s.length < (buffer_length (L : Int)).toNat →
      FishBinaryReader.read (i32of 3 ++ (i32of (L : Int) ++ s)) =
        .ok (.str (s.take L), [])) := by
  refine ⟨rfl, ?_, ?_⟩
  · intro s hs
    unfold FishBinaryReader.read
    rw [FishBinaryReader.read_int_i32of 2 s (by norm_num) (by norm_num)]
    simp only [ok_bind]
    norm_num
    rw [FishBinaryReader.read_double_short s hs]
    simp only [error_bind]
  · intro L s hL hs
    have hL0 : -(2 ^ 31) ≤ ((L : Nat) : Int) := by
      have := Int.ofNat_nonneg L
      omega
    unfold FishBinaryReader.read
    rw [FishBinaryReader.read_int_i32of 3 _ (by norm_num) (by norm_num)]
    simp only [ok_bind]
    norm_num
    rw [FishBinaryReader.read_int_i32of (L : Int) s hL0 hL]
    simp only [ok_bind]
    rw [if_neg (not_lt.mpr (buffer_length_nonneg L))]
    unfold fread
    rw [List.take_of_length_le (le_of_lt hs), List.drop_eq_nil_of_le (le_of_lt hs)]
    unfold pySliceTo
    rw [if_pos (Int.ofNat_nonneg L)]
    simp

/-- C7 witness: a truncated Real payload gives the same `struct.error` as
end-of-data, and a String record declaring 4 bytes with only 2 present is
silently returned truncated. -/
theorem C7_witness :
    FishBinaryReader.read (i32of 2 ++ [0, 0, 0]) = .error .structError ∧
    FishBinaryReader.read (i32of 3 ++ (i32of 4 ++ [97, 98])) =
      .ok (.str [97, 98], []) := by
  refine ⟨C7_truncation.2.1 [0, 0, 0] (by norm_num), ?_⟩
  have h := C7_truncation.2.2 4 [97, 98] (by norm_num) (by decide)
  simpa using h

/-- C8: evaluating `read_type` against a peer that closed the connection
before delivering any bytes.  `recv` then returns the empty string on
every call, `bytes_read` stays 0, and the loop guard `bytes_read <
byte_count` holds forever: for every iteration bound the loop is still
running, so `read_type` never terminates instead of failing with a
Truncated error. -/
theorem C8_nontermination (fuel byte_count : Nat) (h : 0 < byte_count) :
    read_type fuel ⟨[]⟩ byte_count = .error .outOfFuel := by
  unfold read_type
  induction fuel with
  | zero => simp [readTypeLoop, h]
  | succ f ih => simpa [readTypeLoop, h, recv] using ih

/-- C8 witness: with 64 iterations allowed, a 4-byte read from a closed
connection has still not terminated. -/
theorem C8_witness : read_type 64 ⟨[]⟩ 4 = .error .outOfFuel :=
  C8_nontermination 64 4 (by norm_num)

/-- C9: Boolean values travel only through the log file: the log reader
decodes tag 8 as `True` for any nonzero int payload and `False` for zero;
`send_data` rejects a Python `bool` (its type matches no branch); and the
socket decode path treats tag 8 as an unknown tag and fails fatally. -/
theorem C9_boolean (v : Int) (rest : List Nat) (b : Bool)
    (h1 : -(2 ^ 31) ≤ v) (h2 : v < 2 ^ 31) :
    FishBinaryReader.read (i32of 8 ++ (i32of v ++ rest)) =
      .ok (.bool (decide (v ≠ 0)), rest) ∧
    send_data (.bool b) = .error .unknownTypeInSendData ∧
    read_data (i32of 8 ++ rest) = .error .dataReadTypeError := by
  refine ⟨?_, rfl, ?_⟩
  · unfold FishBinaryReader.read
    rw [FishBinaryReader.read_int_i32of 8 _ (by norm_num) (by norm_num)]
    simp only [ok_bind]
    norm_num
    rw [FishBinaryReader.read_int_i32of v rest h1 h2]
    simp only [ok_bind]
  · unfold read_data
    rw [takeE_exact rest (i32of_length 8)]
    simp only [ok_bind]
    rw [unpack_i32of 8 (by norm_num) (by norm_num)]
    simp

/-- C9 witness: payload 5 decodes to True, payload 0 to False, and the
socket paths reject booleans and tag 8. -/
theorem C9_witness :
    FishBinaryReader.read (i32of 8 ++ (i32of 5 ++ [])) = .ok (.bool true, []) ∧
    FishBinaryReader.read (i32of 8 ++ (i32of 0 ++ [])) = .ok (.bool false, []) ∧
    send_data (.bool true) = .error .unknownTypeInSendData ∧
    read_data (i32of 8 ++ []) = .error .dataReadTypeError := by
  have h5 := C9_boolean 5 [] true (by norm_num) (by norm_num)
  have h0 := C9_boolean 0 [] true (by norm_num) (by norm_num)
  refine ⟨by simpa using h5.1, by simpa using h0.1, h5.2.1, h5.2.2⟩

/-- C10: every 2- or 3-element list accepted by `send_data` has its
elements coerced through `float(x)` before encoding, so the decoded value
is the vector of those coerced doubles — for integer elements the peer
receives their float images, not the original integers. -/
theorem C10_float_coercion (xs : List PyNum)
    (hlen : xs.length = 2 ∨ xs.length = 3)
    (hb : ∀ x ∈ xs, pyFloat x < 2 ^ 64) :
    ∃ bs, send_data (.list xs) = .ok bs ∧
      read_data bs = .ok (pyToValue (.list xs), []) := by
  rcases xs with _ | ⟨x0, _ | ⟨x1, _ | ⟨x2, _ | ⟨x3, tl⟩⟩⟩⟩
  · simp only [List.length_nil] at hlen; omega
  · simp only [List.length_cons, List.length_nil] at hlen; omega
  · exact ⟨_, send_data_v2 x0 x1,
      read_data_v2 (pyFloat x0) (pyFloat x1)
        (hb x0 (by simp)) (hb x1 (by simp))⟩
  · exact ⟨_, send_data_v3 x0 x1 x2,
      read_data_v3 (pyFloat x0) (pyFloat x1) (pyFloat x2)
        (hb x0 (by simp)) (hb x1 (by simp)) (hb x2 (by simp))⟩
  · simp only [List.length_cons] at hlen; omega

/-- C10 witness: sending the integer list [1, 2] is received as the vector
of the doubles 1.0 and 2.0 (bit patterns 0x3FF0000000000000 and
0x4000000000000000), not as integers. -/
theorem C10_witness :
    ∃ bs, send_data (.list [.int 1, .int 2]) = .ok bs ∧
      read_data bs =
        .ok (.v2 4607182418800017408 4611686018427387904, []) := by
  have h := C10_float_coercion [.int 1, .int 2] (Or.inl rfl) (by decide)
  have e : pyToValue (.list [.int 1, .int 2]) =
      .v2 4607182418800017408 4611686018427387904 := by decide
  simpa only [e] using h

end Itasca
